import Mathlib

/-!
Verification development for the currency-ledger backend
(`createrington-nodejs-backend`).

The ledger routes live in `src/unnamed/part_003` (PostgreSQL variant,
mounted as `app/routes/currencyMod.js`) and in
`src/scripts/setup/templates/routes/sqlite.js` (SQLite variant).
Balances are held in the `user_funds` table (one row per `uuid`; the
login route's `INSERT ... ON CONFLICT (uuid)` shows `uuid` carries a
unique constraint), the transaction log in `currency_transactions`
(append-only INSERT via `logTransactions`), and the daily-reward
tracker in `daily_rewards` (upsert by `uuid`).

JavaScript numbers are modelled as rationals for the finite case, with
a dedicated `JSNum` type (finite / NaN / ±Infinity) for the input
validation layer, where JS comparison semantics (NaN compares false
with everything) matter.  The store is modelled as an association list
`List (String × ℚ)`; SQL `UPDATE ... WHERE uuid = $1` becomes a map
over all rows whose key matches, `SELECT ... WHERE uuid = $1` a
`find?`, and `rowCount` of an update a filtered length.
-/

namespace Createrington

/-- JS number: finite value, NaN, or a signed infinity.  Used to model
the `typeof amount === "number"` input space of the routes. -/
inductive JSNum where
  | fin : ℚ → JSNum
  | nan : JSNum
  | posInf : JSNum
  | negInf : JSNum
  deriving DecidableEq, Repr

/-- JS `<=` on numbers: any comparison involving NaN is false. -/
def JSNum.jsle : JSNum → JSNum → Bool
  | .nan, _ => false
  | _, .nan => false
  | .fin a, .fin b => decide (a ≤ b)
  | .negInf, _ => true
  | _, .posInf => true
  | .posInf, _ => false
  | .fin _, .negInf => false

/-- A JS value as it can arrive in a JSON request body field. -/
inductive JSVal where
  | undef : JSVal
  | null : JSVal
  | boolean : Bool → JSVal
  | str : String → JSVal
  | num : JSNum → JSVal
  deriving DecidableEq, Repr

/-- The `amount` validation of `POST /currency/pay`
(`src/unnamed/part_003` lines 99-105): reject unless
`typeof amount === "number"`, then reject when `amount <= 0` under JS
comparison.  Everything else is accepted. -/
def payAccepts : JSVal → Bool
  | .num n => !(n.jsle (.fin 0))
  | _ => false

/-- Modelled from the spec: "amount (must be a finite positive
integer; reject with InvalidAmount otherwise)" — the spec-side
acceptance predicate for a pay amount, used to compare the spec's
validation contract with the code's `payAccepts`. -/
def isFinitePosInt : JSVal → Bool
  | .num (.fin q) => decide (0 < q) && decide (q.den = 1)
  | _ => false

/-- One row of `currency_transactions`, as inserted by
`logTransactions` (`src/scripts/setup/templates/db/mongo.js`,
pg variant): uuid, action, amount, optional from/to, optional
denomination/count, optional balance_after. -/
structure TxRecord where
  uuid : String
  action : String
  amount : ℚ
  from_uuid : Option String
  to_uuid : Option String
  denomination : Option ℚ
  count : Option ℚ
  balance_after : Option ℚ
  deriving DecidableEq, Repr

/-- The record appended by a successful pay (`part_003` lines 144-151). -/
def payRecord (from_uuid to_uuid : String) (amount newSenderBal : ℚ) : TxRecord :=
  ⟨from_uuid, "pay", amount, some from_uuid, some to_uuid, none, none, some newSenderBal⟩

/-- The record appended by a successful deposit (`part_003` lines 193-198). -/
def depositRecord (uuid : String) (amount newBalance : ℚ) : TxRecord :=
  ⟨uuid, "deposit", amount, none, none, none, none, some newBalance⟩

/-- The record appended by a successful withdraw (`part_003` lines 250-257). -/
def withdrawRecord (uuid : String) (amount denom count newBalance : ℚ) : TxRecord :=
  ⟨uuid, "withdraw", amount, none, none, some denom, some count, some newBalance⟩

/-- The persistent state touched by the ledger routes: `user_funds`
rows (uuid, balance), the `currency_transactions` log, and the
`daily_rewards` tracker (uuid, last_claim_at as a timestamp). -/
structure LedgerState where
  funds : List (String × ℚ)
  txLog : List TxRecord
  daily : List (String × Int)
  deriving DecidableEq, Repr

/-- `SELECT balance FROM user_funds WHERE uuid = $1` (first matching
row, as `rows[0]`). -/
def getBalance (funds : List (String × ℚ)) (uuid : String) : Option ℚ :=
  (funds.find? (fun r => r.1 == uuid)).map (fun r => r.2)

/-- `UPDATE user_funds SET balance = balance + $1 WHERE uuid = $2`:
adds `delta` to every row whose key matches. -/
def adjustBalance (funds : List (String × ℚ)) (uuid : String) (delta : ℚ) :
    List (String × ℚ) :=
  funds.map (fun r => if r.1 == uuid then (r.1, r.2 + delta) else r)

/-- `rowCount` of a statement matching `WHERE uuid = $1`. -/
def countKey (funds : List (String × ℚ)) (uuid : String) : Nat :=
  (funds.filter (fun r => r.1 == uuid)).length

/-- Sum of all balances in the store. -/
def sumBal (funds : List (String × ℚ)) : ℚ :=
  (funds.map (fun r => r.2)).sum

/-- The `uuid` unique constraint of `user_funds` (witnessed by the
login route's `INSERT ... ON CONFLICT (uuid)`). -/
def KeysNodup (funds : List (String × ℚ)) : Prop :=
  (funds.map (fun r => r.1)).Nodup

/-- All stored balances are non-negative. -/
def AllNonneg (funds : List (String × ℚ)) : Prop :=
  ∀ r ∈ funds, 0 ≤ r.2

/-- `SELECT last_claim_at FROM daily_rewards WHERE uuid = $1`. -/
def lookupTs (daily : List (String × Int)) (uuid : String) : Option Int :=
  (daily.find? (fun r => r.1 == uuid)).map (fun r => r.2)

/-- `INSERT INTO daily_rewards ... ON CONFLICT (uuid) DO UPDATE SET
last_claim_at = EXCLUDED.last_claim_at`. -/
def upsertTs (daily : List (String × Int)) (uuid : String) (t : Int) :
    List (String × Int) :=
  if daily.any (fun r => r.1 == uuid) then
    daily.map (fun r => if r.1 == uuid then (r.1, t) else r)
  else
    daily ++ [(uuid, t)]

/-- Outcome of `POST /currency/pay`. -/
inductive PayResult where
  | success : ℚ → PayResult
  | invalidAmount : PayResult
  | senderNotFound : PayResult
  | insufficientFunds : PayResult
  | recipientNotFound : PayResult
  | logFailed : PayResult
  deriving DecidableEq, Repr

/-- The pay transaction of the PostgreSQL variant
(`src/unnamed/part_003` lines 107-160), after input validation:
lock-read sender balance (none → "Sender not found", ROLLBACK);
`newSenderBal = senderBalance - amount`; insufficient-funds guard
(ROLLBACK); debit sender; credit recipient with `rowCount` check
(0 → "Recipient not found", ROLLBACK); COMMIT; then — only after the
commit — `logTransactions` appends the record from a separate pool
query.  `logOk` models whether that post-commit append succeeds; when
it fails the route answers 400 from the catch branch (its ROLLBACK is
a no-op after COMMIT) but the balance mutations stay committed. -/
def payPg (s : LedgerState) (from_uuid to_uuid : String) (amount : ℚ)
    (logOk : Bool) : PayResult × LedgerState :=
  match getBalance s.funds from_uuid with
  | none => (.senderNotFound, s)
  | some senderBalance =>
    let newSenderBal := senderBalance - amount
    if senderBalance < amount then (.insufficientFunds, s)
    else
      let funds1 := adjustBalance s.funds from_uuid (-amount)
      if countKey funds1 to_uuid = 0 then (.recipientNotFound, s)
      else
        let funds2 := adjustBalance funds1 to_uuid amount
        if logOk then
          (.success newSenderBal,
            { funds := funds2,
              txLog := s.txLog ++ [payRecord from_uuid to_uuid amount newSenderBal],
              daily := s.daily })
        else
          (.logFailed, { funds := funds2, txLog := s.txLog, daily := s.daily })

/-- `POST /currency/pay` (pg) including the `amount <= 0` validation
(lines 103-105); the finite-number case of the route. -/
def payRoute (s : LedgerState) (from_uuid to_uuid : String) (amount : ℚ)
    (logOk : Bool) : PayResult × LedgerState :=
  if amount ≤ 0 then (.invalidAmount, s)
  else payPg s from_uuid to_uuid amount logOk

/-- The pay transaction of the SQLite variant
(`src/scripts/setup/templates/routes/sqlite.js` lines 92-130): reads
sender and recipient balances first, then applies both updates and
calls `logTransactions` inside `db.transaction`, so a throw anywhere
rolls everything back together. -/
def paySqlite (s : LedgerState) (from_uuid to_uuid : String) (amount : ℚ) :
    PayResult × LedgerState :=
  match getBalance s.funds from_uuid with
  | none => (.senderNotFound, s)
  | some senderBalance =>
    if senderBalance < amount then (.insufficientFunds, s)
    else
      match getBalance s.funds to_uuid with
      | none => (.recipientNotFound, s)
      | some _ =>
        let funds1 := adjustBalance s.funds from_uuid (-amount)
        let funds2 := adjustBalance funds1 to_uuid amount
        let newSenderBalance := senderBalance - amount
        (.success newSenderBalance,
          { funds := funds2,
            txLog := s.txLog ++ [payRecord from_uuid to_uuid amount newSenderBalance],
            daily := s.daily })

/-- Outcome of `POST /currency/deposit`. -/
inductive DepositResult where
  | success : ℚ → DepositResult
  | invalidInput : DepositResult
  | userNotFound : DepositResult
  deriving DecidableEq, Repr

/-- The deposit transaction of the pg variant (`part_003` lines
176-207): `UPDATE ... RETURNING balance` (rowCount 0 → 404, no
mutation), COMMIT, append record with `balance_after` = new balance.
The post-commit log append is taken as succeeding here; the log
failure mode is modelled on pay (`payPg`). -/
def depositPg (s : LedgerState) (uuid : String) (amount : ℚ) :
    DepositResult × LedgerState :=
  match getBalance s.funds uuid with
  | none => (.userNotFound, s)
  | some bal =>
    let newBalance := bal + amount
    (.success newBalance,
      { funds := adjustBalance s.funds uuid amount,
        txLog := s.txLog ++ [depositRecord uuid amount newBalance],
        daily := s.daily })

/-- `POST /currency/deposit` (pg) including the
`typeof amount !== "number" || amount <= 0` validation (line 172),
finite-number case. -/
def depositRoute (s : LedgerState) (uuid : String) (amount : ℚ) :
    DepositResult × LedgerState :=
  if amount ≤ 0 then (.invalidInput, s)
  else depositPg s uuid amount

/-- Outcome of `POST /currency/withdraw`.  `success` carries
`withdrawn`, `new_balance`, `denomination`, `count` as in the
response body. -/
inductive WithdrawResult where
  | success : ℚ → ℚ → ℚ → ℚ → WithdrawResult
  | invalidCount : WithdrawResult
  | userNotFound : WithdrawResult
  | insufficientFunds : WithdrawResult
  deriving DecidableEq, Repr

/-- `POST /currency/withdraw` (pg, `part_003` lines 215-273): reject
unless `count` is a number with `count > 0`; `denom` defaults to 1000
when `denomination` is not a number; `amount = count * denom`;
lock-read balance (absent → "User not found"); insufficient-funds
guard; debit by `amount` with `RETURNING balance`; COMMIT; append
record carrying denomination and count.  The denomination itself is
never validated, so any number — including a negative one — is used
as-is. -/
def withdrawRoute (s : LedgerState) (uuid : String) (count : ℚ)
    (denomination : Option ℚ) : WithdrawResult × LedgerState :=
  if count ≤ 0 then (.invalidCount, s)
  else
    let denom := denomination.getD 1000
    let amount := count * denom
    match getBalance s.funds uuid with
    | none => (.userNotFound, s)
    | some currentBalance =>
      if currentBalance < amount then (.insufficientFunds, s)
      else
        let newBalance := currentBalance - amount
        (.success amount newBalance denom count,
          { funds := adjustBalance s.funds uuid (-amount),
            txLog := s.txLog ++ [withdrawRecord uuid amount denom count newBalance],
            daily := s.daily })

/-- Outcome of `POST /currency/daily`. -/
inductive DailyResult where
  | success : ℚ → DailyResult
  | userNotFound : DailyResult
  | alreadyClaimed : DailyResult
  deriving DecidableEq, Repr

/-- `DAILY_REWARD_AMOUNT` (`part_003` line 360). -/
def DAILY_REWARD_AMOUNT : ℚ := 50

/-- The `alreadyClaimed` test (`part_003` lines 397-401): a
`daily_rewards` row exists and its `last_claim_at` is at or after the
last reset instant. -/
def alreadyClaimedB (daily : List (String × Int)) (uuid : String)
    (lastResetTs : Int) : Bool :=
  match lookupTs daily uuid with
  | none => false
  | some t => decide (lastResetTs ≤ t)

/-- `POST /currency/daily` (pg, `part_003` lines 353-445), with the
ambient clock and the computed reset boundary passed as timestamps:
lock-read balance (absent → 404, ROLLBACK); if already claimed since
the last reset → 429, ROLLBACK, no mutation; else credit the fixed
reward, upsert `last_claim_at := now`, COMMIT, and answer with
`currentBal + DAILY_REWARD_AMOUNT`.  No transaction record is
appended by this route. -/
def dailyClaim (s : LedgerState) (uuid : String) (nowTs lastResetTs : Int) :
    DailyResult × LedgerState :=
  match getBalance s.funds uuid with
  | none => (.userNotFound, s)
  | some currentBal =>
    if alreadyClaimedB s.daily uuid lastResetTs then (.alreadyClaimed, s)
    else
      (.success (currentBal + DAILY_REWARD_AMOUNT),
        { funds := adjustBalance s.funds uuid DAILY_REWARD_AMOUNT,
          txLog := s.txLog,
          daily := upsertTs s.daily uuid nowTs })

/-- A committed ledger operation as dispatched by the routes. -/
inductive Op where
  | pay : String → String → ℚ → Bool → Op
  | deposit : String → ℚ → Op
  | withdraw : String → ℚ → Option ℚ → Op
  | daily : String → Int → Int → Op
  deriving DecidableEq, Repr

/-- Run one route call and keep the resulting state. -/
def applyOp (s : LedgerState) : Op → LedgerState
  | .pay f t a ok => (payRoute s f t a ok).2
  | .deposit u a => (depositRoute s u a).2
  | .withdraw u c d => (withdrawRoute s u c d).2
  | .daily u n l => (dailyClaim s u n l).2

/-- Run a sequence of route calls. -/
def applyOps (s : LedgerState) (ops : List Op) : LedgerState :=
  ops.foldl applyOp s

/-! ### Store lemmas -/

theorem pred_comp_adjust (u v : String) (d : ℚ) :
    ((fun r : String × ℚ => r.1 == v) ∘
      fun r : String × ℚ => if r.1 == u then (r.1, r.2 + d) else r)
      = fun r : String × ℚ => r.1 == v := by
  funext r
  by_cases h : r.1 = u <;> simp [Function.comp, h]

theorem getBalance_adjust_same (funds : List (String × ℚ)) (u : String) (d : ℚ) :
    getBalance (adjustBalance funds u d) u = (getBalance funds u).map (fun b => b + d) := by
  unfold getBalance adjustBalance
  rw [List.find?_map, pred_comp_adjust]
  cases hf : funds.find? (fun r => r.1 == u) with
  | none => rfl
  | some r0 =>
    have h0 : r0.1 = u := by simpa using List.find?_some hf
    simp [Option.map_map, Function.comp, h0]

theorem getBalance_adjust_other (funds : List (String × ℚ)) (u v : String) (d : ℚ)
    (hvu : v ≠ u) :
    getBalance (adjustBalance funds u d) v = getBalance funds v := by
  unfold getBalance adjustBalance
  rw [List.find?_map, pred_comp_adjust]
  cases hf : funds.find? (fun r => r.1 == v) with
  | none => rfl
  | some r0 =>
    have h0 : r0.1 = v := by simpa using List.find?_some hf
    have h1 : ¬ r0.1 = u := by rw [h0]; exact hvu
    simp [Option.map_map, Function.comp, h1]

theorem keys_adjust (funds : List (String × ℚ)) (u : String) (d : ℚ) :
    (adjustBalance funds u d).map (fun r => r.1) = funds.map (fun r => r.1) := by
  unfold adjustBalance
  rw [List.map_map]
  congr 1
  funext r
  by_cases h : r.1 = u <;> simp [Function.comp, h]

theorem keysNodup_adjust (funds : List (String × ℚ)) (u : String) (d : ℚ)
    (hnd : KeysNodup funds) : KeysNodup (adjustBalance funds u d) := by
  unfold KeysNodup at hnd ⊢
  rwa [keys_adjust]

theorem countKey_adjust (funds : List (String × ℚ)) (u v : String) (d : ℚ) :
    countKey (adjustBalance funds u d) v = countKey funds v := by
  unfold countKey adjustBalance
  rw [List.filter_map, pred_comp_adjust, List.length_map]

theorem sumBal_adjust (funds : List (String × ℚ)) (u : String) (d : ℚ) :
    sumBal (adjustBalance funds u d) = sumBal funds + d * (countKey funds u : ℚ) := by
  induction funds with
  | nil => simp [sumBal, adjustBalance, countKey]
  | cons a tl ih =>
    by_cases h : a.1 = u
    · simp [sumBal, adjustBalance, countKey, List.filter_cons, h] at ih ⊢
      rw [ih]
      ring
    · simp [sumBal, adjustBalance, countKey, List.filter_cons, h] at ih ⊢
      rw [ih]
      ring

theorem countKey_ne_zero_of_getBalance (funds : List (String × ℚ)) (u : String)
    (b : ℚ) (hb : getBalance funds u = some b) : countKey funds u ≠ 0 := by
  unfold getBalance at hb
  cases hf : funds.find? (fun r => r.1 == u) with
  | none => rw [hf] at hb; cases hb
  | some r0 =>
    have hmem : r0 ∈ funds := List.mem_of_find?_eq_some hf
    have hp : r0.1 = u := by simpa using List.find?_some hf
    have hin : r0 ∈ funds.filter (fun r => r.1 == u) :=
      List.mem_filter.mpr ⟨hmem, by simp [hp]⟩
    unfold countKey
    intro hlen
    rw [List.length_eq_zero] at hlen
    rw [hlen] at hin
    cases hin

theorem countKey_le_one_of_nodup (funds : List (String × ℚ)) (u : String)
    (hnd : KeysNodup funds) : countKey funds u ≤ 1 := by
  induction funds with
  | nil => simp [countKey]
  | cons a tl ih =>
    simp only [KeysNodup, List.map_cons, List.nodup_cons] at hnd
    obtain ⟨ha, hnd2⟩ := hnd
    by_cases h : a.1 = u
    · have h0 : countKey tl u = 0 := by
        unfold countKey
        rw [List.length_eq_zero, List.filter_eq_nil_iff]
        intro r hr hru
        have hr1 : r.1 = u := by simpa using hru
        have hmem : r.1 ∈ tl.map (fun r => r.1) := List.mem_map_of_mem _ hr
        rw [hr1, ← h] at hmem
        exact ha hmem
      unfold countKey at h0 ⊢
      simp only [List.filter_cons, h, beq_self_eq_true, if_true, List.length_cons]
      omega
    · have htl := ih hnd2
      unfold countKey at htl ⊢
      simp only [List.filter_cons, h, beq_iff_eq, if_false]
      exact htl

theorem countKey_eq_one (funds : List (String × ℚ)) (u : String) (b : ℚ)
    (hnd : KeysNodup funds) (hb : getBalance funds u = some b) :
    countKey funds u = 1 := by
  have h1 := countKey_ne_zero_of_getBalance funds u b hb
  have h2 := countKey_le_one_of_nodup funds u hnd
  omega

theorem getBalance_eq_of_mem (funds : List (String × ℚ)) (hnd : KeysNodup funds)
    (r : String × ℚ) (hr : r ∈ funds) : getBalance funds r.1 = some r.2 := by
  induction funds with
  | nil => cases hr
  | cons a tl ih =>
    simp only [KeysNodup, List.map_cons, List.nodup_cons] at hnd
    obtain ⟨ha, hnd2⟩ := hnd
    rcases List.mem_cons.mp hr with rfl | hr2
    · unfold getBalance
      rw [List.find?_cons_of_pos _ (by simp)]
      rfl
    · have hne : ¬ ((a.1 == r.1) = true) := by
        simp only [beq_iff_eq]
        intro hcontra
        exact ha (hcontra ▸ List.mem_map_of_mem (fun r => r.1) hr2)
      unfold getBalance at ih ⊢
      rw [@List.find?_cons_of_neg _ (fun r2 => r2.1 == r.1) a tl hne]
      exact ih hnd2 hr2

theorem adjust_adjust_cancel (funds : List (String × ℚ)) (u : String) (d : ℚ) :
    adjustBalance (adjustBalance funds u (-d)) u d = funds := by
  unfold adjustBalance
  rw [List.map_map]
  have hcomp : ((fun r : String × ℚ => if r.1 == u then (r.1, r.2 + d) else r) ∘
      fun r : String × ℚ => if r.1 == u then (r.1, r.2 + -d) else r) = id := by
    funext r
    by_cases h : r.1 = u
    · subst h
      have hc : r.2 + -d + d = r.2 := by ring
      simp [Function.comp, hc]
    · simp [Function.comp, h]
  rw [hcomp, List.map_id]

theorem pred_comp_upsert (u : String) (t : Int) :
    ((fun r : String × Int => r.1 == u) ∘
      fun r : String × Int => if r.1 == u then (r.1, t) else r)
      = fun r : String × Int => r.1 == u := by
  funext r
  by_cases h : r.1 = u <;> simp [Function.comp, h]

theorem lookupTs_upsert_same (d : List (String × Int)) (u : String) (t : Int) :
    lookupTs (upsertTs d u t) u = some t := by
  unfold upsertTs
  by_cases h : d.any (fun r => r.1 == u)
  · simp only [h, if_true]
    unfold lookupTs
    rw [List.find?_map, pred_comp_upsert]
    cases hf : d.find? (fun r => r.1 == u) with
    | none =>
      rw [List.find?_eq_none] at hf
      rcases List.any_eq_true.mp h with ⟨r, hr, hpr⟩
      exact absurd hpr (hf r hr)
    | some r0 =>
      have h0 : r0.1 = u := by simpa using List.find?_some hf
      simp [Option.map_map, Function.comp, h0]
  · have hb : d.any (fun r => r.1 == u) = false := Bool.eq_false_iff.mpr h
    rw [hb]
    simp only [Bool.false_eq_true, if_false]
    unfold lookupTs
    rw [List.find?_append]
    have hnone : d.find? (fun r => r.1 == u) = none := by
      rw [List.find?_eq_none]
      intro r hr hpr
      exact h (List.any_eq_true.mpr ⟨r, hr, hpr⟩)
    rw [hnone]
    simp

/-! ### Operation state-shape lemmas -/

theorem payPg_state (s : LedgerState) (f t : String) (a : ℚ) (ok : Bool) :
    ((payPg s f t a ok).2 = s ∧ ∀ nb, (payPg s f t a ok).1 ≠ PayResult.success nb) ∨
    (∃ bal, getBalance s.funds f = some bal ∧ a ≤ bal ∧ countKey s.funds t ≠ 0 ∧
      (payPg s f t a ok).2.funds = adjustBalance (adjustBalance s.funds f (-a)) t a ∧
      (payPg s f t a ok).2.daily = s.daily) := by
  cases hgb : getBalance s.funds f with
  | none => left; simp [payPg, hgb]
  | some bal =>
    by_cases hins : bal < a
    · left; simp [payPg, hgb, hins]
    · by_cases hrc : countKey (adjustBalance s.funds f (-a)) t = 0
      · left; simp [payPg, hgb, hins, hrc]
      · right
        refine ⟨bal, by simp [hgb], not_lt.mp hins, ?_, ?_, ?_⟩
        · rwa [countKey_adjust] at hrc
        · cases ok <;> simp [payPg, hgb, hins, hrc]
        · cases ok <;> simp [payPg, hgb, hins, hrc]

theorem paySqlite_state (s : LedgerState) (f t : String) (a : ℚ) :
    ((paySqlite s f t a).2 = s ∧ ∀ nb, (paySqlite s f t a).1 ≠ PayResult.success nb) ∨
    (∃ bal, getBalance s.funds f = some bal ∧ a ≤ bal ∧ countKey s.funds t ≠ 0 ∧
      (paySqlite s f t a).2.funds = adjustBalance (adjustBalance s.funds f (-a)) t a) := by
  cases hgb : getBalance s.funds f with
  | none => left; simp [paySqlite, hgb]
  | some bal =>
    by_cases hins : bal < a
    · left; simp [paySqlite, hgb, hins]
    · cases hgt : getBalance s.funds t with
      | none => left; simp [paySqlite, hgb, hins, hgt]
      | some b2 =>
        right
        exact ⟨bal, by simp [hgb], not_lt.mp hins,
          countKey_ne_zero_of_getBalance _ _ b2 hgt,
          by simp [paySqlite, hgb, hins, hgt]⟩

theorem depositPg_state (s : LedgerState) (u : String) (a : ℚ) :
    (depositPg s u a).2 = s ∨
    (∃ bal, getBalance s.funds u = some bal ∧
      (depositPg s u a).2.funds = adjustBalance s.funds u a ∧
      (depositPg s u a).2.daily = s.daily) := by
  cases hgb : getBalance s.funds u with
  | none => left; simp [depositPg, hgb]
  | some bal =>
    right
    exact ⟨bal, by simp [hgb], by simp [depositPg, hgb], by simp [depositPg, hgb]⟩

theorem withdrawRoute_state (s : LedgerState) (u : String) (c : ℚ) (dopt : Option ℚ) :
    (withdrawRoute s u c dopt).2 = s ∨
    (∃ bal, getBalance s.funds u = some bal ∧ c * dopt.getD 1000 ≤ bal ∧
      (withdrawRoute s u c dopt).2.funds = adjustBalance s.funds u (-(c * dopt.getD 1000)) ∧
      (withdrawRoute s u c dopt).2.daily = s.daily) := by
  by_cases hc : c ≤ 0
  · left; simp [withdrawRoute, hc]
  · cases hgb : getBalance s.funds u with
    | none => left; simp [withdrawRoute, hc, hgb]
    | some bal =>
      by_cases hins : bal < c * dopt.getD 1000
      · left; simp [withdrawRoute, hc, hgb, hins]
      · right
        exact ⟨bal, by simp [hgb], not_lt.mp hins,
          by simp [withdrawRoute, hc, hgb, hins],
          by simp [withdrawRoute, hc, hgb, hins]⟩

theorem dailyClaim_state (s : LedgerState) (u : String) (n l : Int) :
    (dailyClaim s u n l).2 = s ∨
    (dailyClaim s u n l).2.funds = adjustBalance s.funds u DAILY_REWARD_AMOUNT := by
  cases hgb : getBalance s.funds u with
  | none => left; simp [dailyClaim, hgb]
  | some bal =>
    by_cases hac : alreadyClaimedB s.daily u l
    · left; simp [dailyClaim, hgb, hac]
    · right; simp [dailyClaim, hgb, hac]

/-! ### Non-negativity preservation lemmas -/

theorem allNonneg_credit (funds : List (String × ℚ)) (u : String) (d : ℚ)
    (h0 : AllNonneg funds) (hd : 0 ≤ d) : AllNonneg (adjustBalance funds u d) := by
  intro r2 hr2
  simp only [adjustBalance, List.mem_map] at hr2
  obtain ⟨r, hr, rfl⟩ := hr2
  by_cases h : r.1 = u
  · simp only [h, beq_self_eq_true, if_true]
    exact add_nonneg (h0 r hr) hd
  · simp only [beq_iff_eq, h, if_false]
    exact h0 r hr

theorem allNonneg_debit (funds : List (String × ℚ)) (u : String) (bal d : ℚ)
    (hnd : KeysNodup funds) (h0 : AllNonneg funds)
    (hbal : getBalance funds u = some bal) (hle : d ≤ bal) :
    AllNonneg (adjustBalance funds u (-d)) := by
  intro r2 hr2
  simp only [adjustBalance, List.mem_map] at hr2
  obtain ⟨r, hr, rfl⟩ := hr2
  by_cases h : r.1 = u
  · have hb := getBalance_eq_of_mem funds hnd r hr
    rw [h, hbal] at hb
    have hrb : r.2 = bal := by injection hb.symm
    simp only [h, beq_self_eq_true, if_true]
    simp only [hrb]
    linarith
  · simp only [beq_iff_eq, h, if_false]
    exact h0 r hr

theorem applyOp_keeps (s : LedgerState) (op : Op) (hnd : KeysNodup s.funds)
    (h0 : AllNonneg s.funds) :
    KeysNodup (applyOp s op).funds ∧ AllNonneg (applyOp s op).funds := by
  cases op with
  | pay f t a ok =>
    simp only [applyOp, payRoute]
    by_cases ha : a ≤ 0
    · simp only [if_pos ha]
      exact ⟨hnd, h0⟩
    · simp only [if_neg ha]
      rcases payPg_state s f t a ok with ⟨heq, _⟩ | ⟨bal, hgb, hle, _, hfunds, _⟩
      · rw [heq]; exact ⟨hnd, h0⟩
      · rw [hfunds]
        refine ⟨keysNodup_adjust _ t a (keysNodup_adjust _ f (-a) hnd), ?_⟩
        exact allNonneg_credit _ t a
          (allNonneg_debit _ f bal a hnd h0 hgb hle) (le_of_lt (not_le.mp ha))
  | deposit u a =>
    simp only [applyOp, depositRoute]
    by_cases ha : a ≤ 0
    · simp only [if_pos ha]
      exact ⟨hnd, h0⟩
    · simp only [if_neg ha]
      rcases depositPg_state s u a with heq | ⟨bal, hgb, hfunds, _⟩
      · rw [heq]; exact ⟨hnd, h0⟩
      · rw [hfunds]
        exact ⟨keysNodup_adjust _ u a hnd,
          allNonneg_credit _ u a h0 (le_of_lt (not_le.mp ha))⟩
  | withdraw u c dopt =>
    simp only [applyOp]
    rcases withdrawRoute_state s u c dopt with heq | ⟨bal, hgb, hle, hfunds, _⟩
    · rw [heq]; exact ⟨hnd, h0⟩
    · rw [hfunds]
      exact ⟨keysNodup_adjust _ u _ hnd, allNonneg_debit _ u bal _ hnd h0 hgb hle⟩
  | daily u n l =>
    simp only [applyOp]
    rcases dailyClaim_state s u n l with heq | hfunds
    · rw [heq]; exact ⟨hnd, h0⟩
    · rw [hfunds]
      refine ⟨keysNodup_adjust _ u _ hnd, allNonneg_credit _ u _ h0 ?_⟩
      norm_num [DAILY_REWARD_AMOUNT]

/-! ### Claim theorems -/

/-- C1: conservation — for every pay (pg variant, any log outcome, and
sqlite variant) against a store with unique uuids, the sum of all
balances is unchanged, whether the pay succeeds or fails; and on a
successful pay between distinct accounts the sender's balance drops by
exactly the amount while the recipient's rises by exactly the amount. -/
theorem pay_conservation (s : LedgerState) (f t : String) (a : ℚ) (ok : Bool)
    (hnd : KeysNodup s.funds) :
    sumBal (payPg s f t a ok).2.funds = sumBal s.funds ∧
    sumBal (paySqlite s f t a).2.funds = sumBal s.funds ∧
    (f ≠ t → ∀ nb, (payPg s f t a ok).1 = PayResult.success nb →
      getBalance (payPg s f t a ok).2.funds f
        = (getBalance s.funds f).map (fun b => b - a) ∧
      getBalance (payPg s f t a ok).2.funds t
        = (getBalance s.funds t).map (fun b => b + a)) := by
  refine ⟨?_, ?_, ?_⟩
  · rcases payPg_state s f t a ok with ⟨heq, _⟩ | ⟨bal, hgb, _, hct, hfunds, _⟩
    · rw [heq]
    · rw [hfunds, sumBal_adjust, countKey_adjust, sumBal_adjust,
        countKey_eq_one s.funds f bal hnd hgb]
      have h2 : countKey s.funds t = 1 := by
        have := countKey_le_one_of_nodup s.funds t hnd
        omega
      rw [h2]
      push_cast
      ring
  · rcases paySqlite_state s f t a with ⟨heq, _⟩ | ⟨bal, hgb, _, hct, hfunds⟩
    · rw [heq]
    · rw [hfunds, sumBal_adjust, countKey_adjust, sumBal_adjust,
        countKey_eq_one s.funds f bal hnd hgb]
      have h2 : countKey s.funds t = 1 := by
        have := countKey_le_one_of_nodup s.funds t hnd
        omega
      rw [h2]
      push_cast
      ring
  · intro hft nb hsucc
    rcases payPg_state s f t a ok with ⟨_, hfail⟩ | ⟨bal, hgb, _, _, hfunds, _⟩
    · exact absurd hsucc (hfail nb)
    · rw [hfunds]
      constructor
      · rw [getBalance_adjust_other _ t f a hft, getBalance_adjust_same]
        cases getBalance s.funds f <;> simp [sub_eq_add_neg]
      · rw [getBalance_adjust_same, getBalance_adjust_other _ f t (-a) hft.symm]

/-- Witness for C1 at a concrete two-account store. -/
theorem pay_conservation_witness :
    KeysNodup [("a", (100 : ℚ)), ("b", 7)] ∧
    sumBal (payPg ⟨[("a", 100), ("b", 7)], [], []⟩ "a" "b" 40 true).2.funds
      = sumBal [("a", (100 : ℚ)), ("b", 7)] :=
  ⟨by unfold KeysNodup; decide,
    (pay_conservation ⟨[("a", 100), ("b", 7)], [], []⟩ "a" "b" 40 true
      (by unfold KeysNodup; decide)).1⟩

/-- C2: starting from a store with the uuid unique constraint and all
balances non-negative, every balance is non-negative after every
committed route operation of any sequence of pay / deposit / withdraw /
daily-claim calls. -/
theorem no_negative_balances (s : LedgerState) (ops : List Op)
    (hnd : KeysNodup s.funds) (h0 : AllNonneg s.funds) :
    AllNonneg (applyOps s ops).funds := by
  induction ops generalizing s with
  | nil => exact h0
  | cons op rest ih =>
    have h := applyOp_keeps s op hnd h0
    simpa only [applyOps, List.foldl_cons] using ih (applyOp s op) h.1 h.2

/-- Witness for C2 on a concrete operation sequence. -/
theorem no_negative_balances_witness :
    KeysNodup [("a", (100 : ℚ)), ("b", 0)] ∧
    AllNonneg (applyOps ⟨[("a", 100), ("b", 0)], [], []⟩
      [Op.pay "a" "b" 30 true, Op.withdraw "a" 2 (some 35), Op.daily "b" 5 3]).funds :=
  ⟨by unfold KeysNodup; decide,
    no_negative_balances ⟨[("a", 100), ("b", 0)], [], []⟩
      [Op.pay "a" "b" 30 true, Op.withdraw "a" 2 (some 35), Op.daily "b" 5 3]
      (by unfold KeysNodup; decide) (by unfold AllNonneg; decide)⟩

/-- C4: when the sender exists and its balance is below the amount, pay
(pg variant) answers insufficient funds and the whole state — both
balances and the transaction log — is exactly as before the call. -/
theorem pay_insufficient_funds_no_change (s : LedgerState) (f t : String)
    (a bal : ℚ) (ok : Bool) (hgb : getBalance s.funds f = some bal)
    (hlt : bal < a) :
    payPg s f t a ok = (PayResult.insufficientFunds, s) := by
  simp [payPg, hgb, hlt]

/-- Witness for C4: balance 100, amount 150. -/
theorem pay_insufficient_funds_no_change_witness :
    getBalance [("a", (100 : ℚ)), ("b", 0)] "a" = some 100 ∧ ((100 : ℚ) < 150) ∧
    payPg ⟨[("a", 100), ("b", 0)], [], []⟩ "a" "b" 150 true
      = (PayResult.insufficientFunds, ⟨[("a", 100), ("b", 0)], [], []⟩) :=
  ⟨by decide, by decide,
    pay_insufficient_funds_no_change ⟨[("a", 100), ("b", 0)], [], []⟩ "a" "b" 150 100 true
      (by decide) (by decide)⟩

/-- C10: a self-pay with sufficient funds succeeds in both the pg and
sqlite variants, leaves the stored balance row exactly unchanged (the
debit and the credit hit the same row and cancel), yet reports
`new_sender_balance = oldBalance - amount`, which differs from the
stored balance. -/
theorem self_pay_response_divergence (s : LedgerState) (u : String) (a bal : ℚ)
    (hgb : getBalance s.funds u = some bal) (ha : 0 < a) (hle : a ≤ bal) :
    payPg s u u a true = (PayResult.success (bal - a),
      { funds := s.funds, txLog := s.txLog ++ [payRecord u u a (bal - a)],
        daily := s.daily }) ∧
    paySqlite s u u a = (PayResult.success (bal - a),
      { funds := s.funds, txLog := s.txLog ++ [payRecord u u a (bal - a)],
        daily := s.daily }) ∧
    bal - a ≠ bal := by
  have hins : ¬ (bal < a) := not_lt.mpr hle
  have hrc : ¬ (countKey (adjustBalance s.funds u (-a)) u = 0) := by
    rw [countKey_adjust]
    exact countKey_ne_zero_of_getBalance _ _ bal hgb
  refine ⟨?_, ?_, ?_⟩
  · simp [payPg, hgb, hins, hrc, adjust_adjust_cancel]
  · simp [paySqlite, hgb, hins, adjust_adjust_cancel]
  · intro hcontra
    have hzero : a = 0 := by linarith
    exact absurd hzero (ne_of_gt ha)

/-- Witness for C10: balance 100, self-pay 40 — store keeps 100, the
response reports 60. -/
theorem self_pay_response_divergence_witness :
    getBalance [("a", (100 : ℚ))] "a" = some 100 ∧ (0 : ℚ) < 40 ∧ (40 : ℚ) ≤ 100 ∧
    payPg ⟨[("a", (100 : ℚ))], [], []⟩ "a" "a" 40 true
      = (PayResult.success ((100 : ℚ) - 40),
        { funds := [("a", (100 : ℚ))],
          txLog := ([] : List TxRecord) ++ [payRecord "a" "a" 40 ((100 : ℚ) - 40)],
          daily := ([] : List (String × Int)) }) :=
  ⟨by decide, by decide, by decide,
    (self_pay_response_divergence ⟨[("a", (100 : ℚ))], [], []⟩ "a" 40 100
      (by decide) (by decide) (by decide)).1⟩

/-- C6: withdraw with positive count computes `amount = count * denom`
(denomination defaulting to 1000 when absent); with sufficient balance
it debits exactly the amount, answers withdrawn / new balance /
denomination / count, and appends the matching record; with
insufficient balance it answers insufficient funds and leaves the
state untouched. -/
theorem withdraw_arithmetic (s : LedgerState) (u : String) (count bal : ℚ)
    (dopt : Option ℚ) (hc : 0 < count) (hgb : getBalance s.funds u = some bal) :
    (count * dopt.getD 1000 ≤ bal →
      withdrawRoute s u count dopt
        = (WithdrawResult.success (count * dopt.getD 1000)
            (bal - count * dopt.getD 1000) (dopt.getD 1000) count,
          { funds := adjustBalance s.funds u (-(count * dopt.getD 1000)),
            txLog := s.txLog ++ [withdrawRecord u (count * dopt.getD 1000)
              (dopt.getD 1000) count (bal - count * dopt.getD 1000)],
            daily := s.daily }) ∧
      getBalance (withdrawRoute s u count dopt).2.funds u
        = some (bal - count * dopt.getD 1000)) ∧
    (bal < count * dopt.getD 1000 →
      withdrawRoute s u count dopt = (WithdrawResult.insufficientFunds, s)) := by
  have hc2 : ¬ (count ≤ 0) := not_le.mpr hc
  constructor
  · intro hle
    have hins : ¬ (bal < count * dopt.getD 1000) := not_lt.mpr hle
    constructor
    · simp [withdrawRoute, hc2, hgb, hins]
    · rw [show (withdrawRoute s u count dopt).2.funds
          = adjustBalance s.funds u (-(count * dopt.getD 1000)) from by
        simp [withdrawRoute, hc2, hgb, hins]]
      rw [getBalance_adjust_same, hgb]
      simp [sub_eq_add_neg]
  · intro hlt
    simp [withdrawRoute, hc2, hgb, hlt]

/-- Witness for C6 on the spec scenario: balance 1200, count 2 at
denomination 500 succeeds with withdrawn 1000 and new balance 200;
count 3 at denomination 500 fails with the state unchanged. -/
theorem withdraw_arithmetic_witness :
    ((0 : ℚ) < 2) ∧ (getBalance [("a", (1200 : ℚ))] "a" = some 1200) ∧
    ((2 : ℚ) * (some (500 : ℚ)).getD 1000 ≤ 1200) ∧
    (withdrawRoute ⟨[("a", (1200 : ℚ))], [], []⟩ "a" 2 (some 500)).1
      = WithdrawResult.success 1000 200 500 2 ∧
    ((1200 : ℚ) < 3 * (some (500 : ℚ)).getD 1000) ∧
    withdrawRoute ⟨[("a", (1200 : ℚ))], [], []⟩ "a" 3 (some 500)
      = (WithdrawResult.insufficientFunds, ⟨[("a", (1200 : ℚ))], [], []⟩) := by
  refine ⟨by decide, by decide, by norm_num [Option.getD_some], ?_,
    by norm_num [Option.getD_some], ?_⟩
  · have h := ((withdraw_arithmetic ⟨[("a", (1200 : ℚ))], [], []⟩ "a" 2 1200 (some 500)
      (by decide) (by decide)).1 (by norm_num [Option.getD_some])).1
    rw [h]
    norm_num
  · exact (withdraw_arithmetic ⟨[("a", (1200 : ℚ))], [], []⟩ "a" 3 1200 (some 500)
      (by decide) (by decide)).2 (by norm_num [Option.getD_some])

/-- C8: a deposit of a positive amount to an existing account raises
the balance by exactly the amount, appends one record whose
balance-after equals the new balance, and answers the new balance; for
an unknown account it answers not-found with no mutation. -/
theorem deposit_postcondition (s : LedgerState) (u : String) (a : ℚ) (ha : 0 < a) :
    (∀ bal, getBalance s.funds u = some bal →
      depositRoute s u a = (DepositResult.success (bal + a),
        { funds := adjustBalance s.funds u a,
          txLog := s.txLog ++ [depositRecord u a (bal + a)],
          daily := s.daily }) ∧
      getBalance (depositRoute s u a).2.funds u = some (bal + a)) ∧
    (getBalance s.funds u = none →
      depositRoute s u a = (DepositResult.userNotFound, s)) := by
  have ha2 : ¬ (a ≤ 0) := not_le.mpr ha
  constructor
  · intro bal hgb
    constructor
    · simp [depositRoute, depositPg, ha2, hgb]
    · rw [show (depositRoute s u a).2.funds = adjustBalance s.funds u a from by
        simp [depositRoute, depositPg, ha2, hgb]]
      rw [getBalance_adjust_same, hgb]
      rfl
  · intro hgb
    simp [depositRoute, depositPg, ha2, hgb]

/-- Witness for C8 on the spec scenario: balance 100, deposit 50 →
new balance 150. -/
theorem deposit_postcondition_witness :
    ((0 : ℚ) < 50) ∧ (getBalance [("a", (100 : ℚ))] "a" = some 100) ∧
    (depositRoute ⟨[("a", (100 : ℚ))], [], []⟩ "a" 50).1 = DepositResult.success 150 ∧
    getBalance (depositRoute ⟨[("a", (100 : ℚ))], [], []⟩ "a" 50).2.funds "a"
      = some 150 := by
  refine ⟨by decide, by decide, ?_, ?_⟩
  · have h := ((deposit_postcondition ⟨[("a", (100 : ℚ))], [], []⟩ "a" 50
      (by decide)).1 100 (by decide)).1
    rw [h]
    norm_num
  · have h := ((deposit_postcondition ⟨[("a", (100 : ℚ))], [], []⟩ "a" 50
      (by decide)).1 100 (by decide)).2
    rw [h]
    norm_num

/-- C9: a withdraw with positive count and negative denomination
computes a negative amount, never trips the insufficient-funds guard
on a non-negative balance, and commits a new balance strictly greater
than the old one — it mints currency. -/
theorem withdraw_negative_denomination_mints (s : LedgerState) (u : String)
    (count denom bal : ℚ) (hc : 0 < count) (hd : denom < 0)
    (hgb : getBalance s.funds u = some bal) (hb : 0 ≤ bal) :
    withdrawRoute s u count (some denom)
      = (WithdrawResult.success (count * denom) (bal - count * denom) denom count,
        { funds := adjustBalance s.funds u (-(count * denom)),
          txLog := s.txLog ++ [withdrawRecord u (count * denom) denom count
            (bal - count * denom)],
          daily := s.daily }) ∧
    bal < bal - count * denom := by
  have hneg : count * denom < 0 := mul_neg_of_pos_of_neg hc hd
  have hins : ¬ (bal < count * denom) := not_lt.mpr (le_trans (le_of_lt hneg) hb)
  have hc2 : ¬ (count ≤ 0) := not_le.mpr hc
  constructor
  · simp [withdrawRoute, hc2, hgb, hins]
  · linarith

/-- Witness for C9: balance 0, count 1, denomination -100 → the
withdraw succeeds and the account ends with 100. -/
theorem withdraw_negative_denomination_mints_witness :
    ((0 : ℚ) < 1) ∧ ((-100 : ℚ) < 0) ∧ (getBalance [("a", (0 : ℚ))] "a" = some 0) ∧
    (withdrawRoute ⟨[("a", (0 : ℚ))], [], []⟩ "a" 1 (some (-100))).1
      = WithdrawResult.success (-100) 100 (-100) 1 := by
  refine ⟨by decide, by decide, by decide, ?_⟩
  have h := (withdraw_negative_denomination_mints ⟨[("a", (0 : ℚ))], [], []⟩ "a" 1
    (-100) 0 (by decide) (by decide) (by decide) (by decide)).1
  rw [h]
  norm_num

/-- C7: with the tracker allowing a claim and the claim instant at or
after the reset boundary, the first daily claim succeeds and credits
the fixed reward once, upserting the last-claim timestamp; a second
claim in the same reset period answers already-claimed and changes
neither the balance nor the timestamp. -/
theorem daily_single_fire (s : LedgerState) (u : String) (bal : ℚ)
    (now1 now2 lastReset : Int)
    (hgb : getBalance s.funds u = some bal)
    (hnc : alreadyClaimedB s.daily u lastReset = false)
    (hr : lastReset ≤ now1) :
    (dailyClaim s u now1 lastReset).1 = DailyResult.success (bal + DAILY_REWARD_AMOUNT) ∧
    getBalance (dailyClaim s u now1 lastReset).2.funds u
      = some (bal + DAILY_REWARD_AMOUNT) ∧
    lookupTs (dailyClaim s u now1 lastReset).2.daily u = some now1 ∧
    dailyClaim ((dailyClaim s u now1 lastReset).2) u now2 lastReset
      = (DailyResult.alreadyClaimed, (dailyClaim s u now1 lastReset).2) := by
  have h1 : dailyClaim s u now1 lastReset
      = (DailyResult.success (bal + DAILY_REWARD_AMOUNT),
        { funds := adjustBalance s.funds u DAILY_REWARD_AMOUNT,
          txLog := s.txLog,
          daily := upsertTs s.daily u now1 }) := by
    simp [dailyClaim, hgb, hnc]
  have hgb2 : getBalance (dailyClaim s u now1 lastReset).2.funds u
      = some (bal + DAILY_REWARD_AMOUNT) := by
    simp [h1, getBalance_adjust_same, hgb]
  have hac2 : alreadyClaimedB (dailyClaim s u now1 lastReset).2.daily u lastReset
      = true := by
    simp [h1, alreadyClaimedB, lookupTs_upsert_same, hr]
  refine ⟨by rw [h1], hgb2, ?_, ?_⟩
  · simp [h1, lookupTs_upsert_same]
  · have hgb3 : getBalance (adjustBalance s.funds u DAILY_REWARD_AMOUNT) u
        = some (bal + DAILY_REWARD_AMOUNT) := by
      rw [getBalance_adjust_same, hgb]
      rfl
    have hac3 : alreadyClaimedB (upsertTs s.daily u now1) u lastReset = true := by
      simp [alreadyClaimedB, lookupTs_upsert_same, hr]
    simp only [h1]
    simp [dailyClaim, hgb3, hac3]

/-- Witness for C7: balance 100, empty tracker, reset at 10, claims at
12 and 13 — one credit of 50, then already-claimed. -/
theorem daily_single_fire_witness :
    (getBalance [("a", (100 : ℚ))] "a" = some 100) ∧
    (alreadyClaimedB ([] : List (String × Int)) "a" 10 = false) ∧
    ((10 : Int) ≤ 12) ∧
    (dailyClaim ⟨[("a", (100 : ℚ))], [], []⟩ "a" 12 10).1
      = DailyResult.success (100 + DAILY_REWARD_AMOUNT) ∧
    dailyClaim ((dailyClaim ⟨[("a", (100 : ℚ))], [], []⟩ "a" 12 10).2) "a" 13 10
      = (DailyResult.alreadyClaimed, (dailyClaim ⟨[("a", (100 : ℚ))], [], []⟩ "a" 12 10).2) := by
  have h := daily_single_fire ⟨[("a", (100 : ℚ))], [], []⟩ "a" 100 12 13 10
    (by decide) (by decide) (by decide)
  exact ⟨by decide, by decide, by decide, h.1, h.2.2.2⟩

/-- C5 counterexample: the pay validation accepts the non-integer
amount 3/2 (and NaN and +Infinity), while the spec-side predicate
"finite positive integer" rejects it — the claim that only finite
positive integers are accepted fails on the code. -/
theorem pay_validation_cex :
    payAccepts (JSVal.num (JSNum.fin (3 / 2))) = true ∧
    isFinitePosInt (JSVal.num (JSNum.fin (3 / 2))) = false ∧
    payAccepts (JSVal.num JSNum.nan) = true ∧
    payAccepts (JSVal.num JSNum.posInf) = true := by
  refine ⟨?_, ?_, by decide, by decide⟩
  · norm_num [payAccepts, JSNum.jsle]
  · norm_num [isFinitePosInt]

/-- C5 amended: the pay amount is accepted exactly when it is a JS
number for which `amount <= 0` is false — every finite positive
rational (integer or not), NaN, and +Infinity pass; non-numbers,
finite non-positive values, and -Infinity are rejected — and a
rejected (non-positive finite) amount leaves the state untouched,
the validation running before any state access. -/
theorem pay_validation_amended :
    (∀ v : JSVal, payAccepts v = true ↔
      (v = JSVal.num JSNum.nan ∨ v = JSVal.num JSNum.posInf ∨
        ∃ q : ℚ, v = JSVal.num (JSNum.fin q) ∧ 0 < q)) ∧
    (∀ (s : LedgerState) (f t : String) (a : ℚ) (ok : Bool), a ≤ 0 →
      payRoute s f t a ok = (PayResult.invalidAmount, s)) := by
  constructor
  · intro v
    cases v with
    | num n =>
      cases n with
      | fin q => simp [payAccepts, JSNum.jsle, not_le]
      | nan => simp [payAccepts, JSNum.jsle]
      | posInf => simp [payAccepts, JSNum.jsle]
      | negInf => simp [payAccepts, JSNum.jsle]
    | undef => simp [payAccepts]
    | null => simp [payAccepts]
    | boolean b => simp [payAccepts]
    | str s2 => simp [payAccepts]
  · intro s f t a ok ha
    simp [payRoute, ha]

/-- Witness for C5's amended claim: 3/2 is accepted; amount 0 is
rejected with the state unchanged. -/
theorem pay_validation_amended_witness :
    (payAccepts (JSVal.num (JSNum.fin (3 / 2))) = true) ∧
    ((0 : ℚ) ≤ 0) ∧
    payRoute ⟨[("a", (5 : ℚ))], [], []⟩ "a" "b" 0 true
      = (PayResult.invalidAmount, ⟨[("a", (5 : ℚ))], [], []⟩) := by
  refine ⟨?_, by decide, ?_⟩
  · exact (pay_validation_amended.1 (JSVal.num (JSNum.fin (3 / 2)))).mpr
      (Or.inr (Or.inr ⟨3 / 2, rfl, by norm_num⟩))
  · exact pay_validation_amended.2 ⟨[("a", (5 : ℚ))], [], []⟩ "a" "b" 0 true (by decide)

/-- The pg pay with a failing post-commit log append: the log is never
extended, the result is never success, and when the transaction itself
committed (logFailed outcome) the two balance mutations are in place. -/
theorem payPg_log_fail_shape (s : LedgerState) (f t : String) (a : ℚ) :
    (payPg s f t a false).2.txLog = s.txLog ∧
    (∀ nb, (payPg s f t a false).1 ≠ PayResult.success nb) ∧
    ((payPg s f t a false).1 = PayResult.logFailed →
      (payPg s f t a false).2.funds
        = adjustBalance (adjustBalance s.funds f (-a)) t a) := by
  cases hgb : getBalance s.funds f with
  | none => simp [payPg, hgb]
  | some bal =>
    by_cases hins : bal < a
    · simp [payPg, hgb, hins]
    · by_cases hrc : countKey (adjustBalance s.funds f (-a)) t = 0
      · simp [payPg, hgb, hins, hrc]
      · simp [payPg, hgb, hins, hrc]

/-- The pg pay with a succeeding post-commit log append: a success
outcome carries both balance mutations and exactly one appended
record. -/
theorem payPg_log_ok_shape (s : LedgerState) (f t : String) (a : ℚ) :
    ∀ nb, (payPg s f t a true).1 = PayResult.success nb →
      (payPg s f t a true).2.funds
        = adjustBalance (adjustBalance s.funds f (-a)) t a ∧
      (payPg s f t a true).2.txLog = s.txLog ++ [payRecord f t a nb] := by
  intro nb hsucc
  cases hgb : getBalance s.funds f with
  | none => simp [payPg, hgb] at hsucc
  | some bal =>
    by_cases hins : bal < a
    · simp [payPg, hgb, hins] at hsucc
    · by_cases hrc : countKey (adjustBalance s.funds f (-a)) t = 0
      · simp [payPg, hgb, hins, hrc] at hsucc
      · have hnb : nb = bal - a := by
          simp [payPg, hgb, hins, hrc] at hsucc
          exact hsucc.symm
        subst hnb
        constructor <;> simp [payPg, hgb, hins, hrc]

/-- C3 counterexample: accounts a:100 and b:0, pg pay of 5 whose
post-commit `logTransactions` call fails — both balance mutations are
committed (a:95, b:5) yet no TransactionRecord exists, a committed
outcome the all-or-nothing claim forbids. -/
theorem pay_commit_without_log_cex :
    (payPg ⟨[("a", (100 : ℚ)), ("b", 0)], [], []⟩ "a" "b" 5 false).2.funds
      = [("a", (95 : ℚ)), ("b", 5)] ∧
    (payPg ⟨[("a", (100 : ℚ)), ("b", 0)], [], []⟩ "a" "b" 5 false).2.txLog = [] ∧
    (payPg ⟨[("a", (100 : ℚ)), ("b", 0)], [], []⟩ "a" "b" 5 false).1
      = PayResult.logFailed := by
  have h : payPg ⟨[("a", (100 : ℚ)), ("b", 0)], [], []⟩ "a" "b" 5 false
      = (PayResult.logFailed,
        { funds := [("a", (100 : ℚ) + -5), ("b", (0 : ℚ) + 5)], txLog := [],
          daily := [] }) := rfl
  refine ⟨?_, ?_, ?_⟩
  · rw [h]
    norm_num
  · rw [h]
  · rw [h]

/-- C3 amended: the sqlite pay is all-or-nothing (success applies both
mutations and appends the record; any failure leaves the state exactly
as before), while the pg pay appends its record only after COMMIT: a
failed append never extends the log and never reports success even
though the committed (logFailed) outcome carries both balance
mutations; a succeeding append yields mutations plus exactly one
record. -/
theorem pay_atomicity_amended (s : LedgerState) (f t : String) (a : ℚ) :
    ((∃ nb, (paySqlite s f t a).1 = PayResult.success nb ∧
        (paySqlite s f t a).2.funds
          = adjustBalance (adjustBalance s.funds f (-a)) t a ∧
        (paySqlite s f t a).2.txLog = s.txLog ++ [payRecord f t a nb]) ∨
      (paySqlite s f t a).2 = s) ∧
    ((payPg s f t a false).2.txLog = s.txLog) ∧
    (∀ nb, (payPg s f t a false).1 ≠ PayResult.success nb) ∧
    ((payPg s f t a false).1 = PayResult.logFailed →
      (payPg s f t a false).2.funds
        = adjustBalance (adjustBalance s.funds f (-a)) t a) ∧
    (∀ nb, (payPg s f t a true).1 = PayResult.success nb →
      (payPg s f t a true).2.funds
        = adjustBalance (adjustBalance s.funds f (-a)) t a ∧
      (payPg s f t a true).2.txLog = s.txLog ++ [payRecord f t a nb]) := by
  refine ⟨?_, (payPg_log_fail_shape s f t a).1, (payPg_log_fail_shape s f t a).2.1,
    (payPg_log_fail_shape s f t a).2.2, payPg_log_ok_shape s f t a⟩
  cases hgb : getBalance s.funds f with
  | none => right; simp [paySqlite, hgb]
  | some bal =>
    by_cases hins : bal < a
    · right; simp [paySqlite, hgb, hins]
    · cases hgt : getBalance s.funds t with
      | none => right; simp [paySqlite, hgb, hins, hgt]
      | some b2 =>
        left
        exact ⟨bal - a, by simp [paySqlite, hgb, hins, hgt],
          by simp [paySqlite, hgb, hins, hgt],
          by simp [paySqlite, hgb, hins, hgt]⟩

/-- Witness for C3's amended claim at a concrete success: accounts
a:100 and b:0, pay 5 with a succeeding append — success 95 and the
record is appended. -/
theorem pay_atomicity_amended_witness :
    ((payPg ⟨[("a", (100 : ℚ)), ("b", 0)], [], []⟩ "a" "b" 5 true).1
      = PayResult.success ((100 : ℚ) - 5)) ∧
    (payPg ⟨[("a", (100 : ℚ)), ("b", 0)], [], []⟩ "a" "b" 5 true).2.txLog
      = ([] : List TxRecord) ++ [payRecord "a" "b" 5 ((100 : ℚ) - 5)] := by
  refine ⟨rfl, ?_⟩
  exact ((pay_atomicity_amended ⟨[("a", (100 : ℚ)), ("b", 0)], [], []⟩ "a" "b" 5).2.2.2.2
    ((100 : ℚ) - 5) rfl).2

end Createrington
